import Mathlib

/-
Verification of the Investing_tracker backend (Go, Gin + Postgres).

The development shallowly embeds the HTTP handlers of the backend as pure
Lean functions over an explicit ledger state (the rows of the assets
table).  Machine float64 arithmetic is modelled by exact rationals, and
every fallible external effect (the database writes, the Yahoo quote
fetches) is modelled by an explicit oracle argument, so that each handler
becomes a total computable function from inputs and oracles to a response
and a new ledger.

Sources embedded:
  - the final multi-user revision of main.go (X-User-ID header handling,
    add-or-merge, list, delete, global price sweep, rates endpoint);
  - the counted price sweep with the placeholder-ticker filter and the
    updatedCount accumulator (the update-prices handler of the earlier
    revisions, which is the refreshAll operation with updatedCount that
    the specification describes).
-/

namespace InvestingTracker

/-- Holding row of the assets table.  Numeric columns are float64 in the
source and are modelled as exact rationals. -/
structure Asset where
  id : Nat
  userId : Int
  name : String
  assetType : String
  quantity : ℚ
  avgPrice : ℚ
  currentPrice : ℚ
  previousClose : ℚ
  currency : String
  deriving DecidableEq, Repr

/-- Request body of POST /api/assets: the JSON fields name, type,
quantity, avgPrice. -/
structure AssetInput where
  name : String
  assetType : String
  quantity : ℚ
  avgPrice : ℚ
  deriving DecidableEq, Repr

/-- Successful payload of fetchLivePriceExtended: regular market price,
chart previous close and the quote currency. -/
structure Quote where
  price : ℚ
  prevClose : ℚ
  currency : String
  deriving DecidableEq, Repr

/-- HTTP outcome of a handler, abstracting the status code and message. -/
inductive ApiResponse where
  | ok (msg : String)
  | badRequest (msg : String)
  | unauthorized
  | serverError (msg : String)
  deriving DecidableEq, Repr

/-- Decimal digits folded into a natural number. -/
def digitsToNat (l : List Char) : Nat :=
  l.foldl (fun n c => 10 * n + (c.toNat - 48)) 0

/-- Decimal integer grammar accepted by strconv.Atoi: an optional sign
followed by at least one digit, nothing else. -/
def parseIntOpt (s : String) : Option Int :=
  match s.toList with
  | [] => none
  | c :: rest =>
    if c = '+' then
      if rest ≠ [] ∧ rest.all Char.isDigit then some (digitsToNat rest) else none
    else if c = '-' then
      if rest ≠ [] ∧ rest.all Char.isDigit then some (-(digitsToNat rest : Int)) else none
    else
      if (c :: rest).all Char.isDigit then some (digitsToNat (c :: rest)) else none

/-- Largest value of a 64-bit signed integer. -/
def int64Max : Int := 9223372036854775807

/-- Smallest value of a 64-bit signed integer. -/
def int64Min : Int := -9223372036854775808

/-- Clamp to the 64-bit signed range; strconv.ParseInt returns the
clamped value together with ErrRange on overflow. -/
def clampInt64 (v : Int) : Int :=
  if v > int64Max then int64Max else if v < int64Min then int64Min else v

/-- Model of strconv.Atoi with the error value discarded, which is how
every handler of the multi-user revision consumes it: a syntactically
invalid string yields 0, an out-of-range value is clamped. -/
def goAtoi (s : String) : Int :=
  match parseIntOpt s with
  | some v => clampInt64 v
  | none => 0

/-- Boolean test that the first list is an initial segment of the second. -/
def listHasPre : List Char → List Char → Bool
  | [], _ => true
  | _ :: _, [] => false
  | p :: ps, c :: cs => p == c && listHasPre ps cs

/-- Boolean substring containment on character lists, modelling
strings.Contains. -/
def listHasSub (pat : List Char) : List Char → Bool
  | [] => pat.isEmpty
  | c :: cs => listHasPre pat (c :: cs) || listHasSub pat cs

/-- Model of strings.HasSuffix. -/
def strHasSuffix (s suf : String) : Bool :=
  listHasPre suf.toList.reverse s.toList.reverse

/-- Currency seeded from the ticker suffix by the new-asset branch of
POST /api/assets: .NS or .BO gives INR, .SI gives SGD, anything else USD. -/
def inferCurrency (name : String) : String :=
  if strHasSuffix name ".NS" || strHasSuffix name ".BO" then "INR"
  else if strHasSuffix name ".SI" then "SGD"
  else "USD"

/-- ASCII lower-casing of one character, modelling the effect of
strings.ToLower on the ticker strings involved. -/
def charLower (c : Char) : Char :=
  if 65 ≤ c.toNat ∧ c.toNat ≤ 90 then Char.ofNat (c.toNat + 32) else c

/-- Placeholder-ticker filter of the counted price sweep: the symbol
contains a space, or its lower-casing contains the substring test. -/
def isPlaceholder (s : String) : Bool :=
  listHasSub [' '] s.toList || listHasSub "test".toList (s.toList.map charLower)

/-- Lookup of the merge target: the first row whose name and user match,
modelling SELECT id, quantity, avg_price FROM assets WHERE name AND
user_id LIMIT 1. -/
def findAsset (name : String) (uid : Int) (ledger : List Asset) : Option Asset :=
  ledger.find? (fun a => a.name == name && a.userId == uid)

/-- Merge arithmetic of POST /api/assets: the weighted average cost is
computed only under the guard newTotalQty greater than zero, else the
avg price is left at its zero value. -/
def mergeAvgPrice (existingQty existingAvg addQty addPrice : ℚ) : ℚ :=
  if existingQty + addQty > 0 then
    (existingQty * existingAvg + addQty * addPrice) / (existingQty + addQty)
  else 0

/-- Body of POST /api/assets of the multi-user revision after the user id
has been extracted.  The writeOk oracle tells whether the database write
physically applies; note that the merge branch of this revision assigns
the UPDATE error but never checks it, so the merged response is produced
whether or not the write succeeded. -/
def postAssetsCore (writeOk : Bool) (freshId : Nat) (uid : Int) (input : AssetInput)
    (ledger : List Asset) : ApiResponse × List Asset :=
  match findAsset input.name uid ledger with
  | none =>
    if writeOk then
      (.ok "Asset saved!", ledger ++
        [{ id := freshId, userId := uid, name := input.name, assetType := input.assetType,
           quantity := input.quantity, avgPrice := input.avgPrice,
           currentPrice := input.avgPrice, previousClose := input.avgPrice,
           currency := inferCurrency input.name }])
    else (.serverError "Failed to insert", ledger)
  | some ex =>
    let newTotalQty := ex.quantity + input.quantity
    let newAvgPrice := mergeAvgPrice ex.quantity ex.avgPrice input.quantity input.avgPrice
    let ledger2 := if writeOk then
        ledger.map (fun a => if a.id = ex.id then
          { a with quantity := newTotalQty, avgPrice := newAvgPrice } else a)
      else ledger
    (.ok "Asset merged!", ledger2)

/-- POST /api/assets of the multi-user revision: an absent or empty
X-User-ID header is rejected as unauthorized, otherwise the header is fed
through Atoi with the error discarded. -/
def postAssets (writeOk : Bool) (freshId : Nat) (header : String) (input : AssetInput)
    (ledger : List Asset) : ApiResponse × List Asset :=
  if header = "" then (.unauthorized, ledger)
  else postAssetsCore writeOk freshId (goAtoi header) input ledger

/-- Sort key of GET /api/assets: ORDER BY current_price times quantity
descending. -/
def marketValue (a : Asset) : ℚ := a.currentPrice * a.quantity

/-- Descending insertion used to model the ORDER BY of GET /api/assets. -/
def insertByValueDesc (a : Asset) : List Asset → List Asset
  | [] => [a]
  | b :: rest =>
    if marketValue b ≤ marketValue a then a :: b :: rest
    else b :: insertByValueDesc a rest

/-- Descending sort by market value. -/
def sortByValueDesc : List Asset → List Asset
  | [] => []
  | a :: rest => insertByValueDesc a (sortByValueDesc rest)

/-- Body of GET /api/assets: the rows of one owner ordered by market
value. -/
def listAssetsCore (uid : Int) (ledger : List Asset) : List Asset :=
  sortByValueDesc (ledger.filter (fun a => a.userId == uid))

/-- GET /api/assets of the multi-user revision.  The second component is
the returned asset list. -/
def getAssets (header : String) (ledger : List Asset) : ApiResponse × List Asset :=
  if header = "" then (.unauthorized, [])
  else (.ok "assets", listAssetsCore (goAtoi header) ledger)

/-- Route parameter cast performed by Postgres on the DELETE statement:
the id path segment must be all digits to address a row. -/
def parseId (s : String) : Option Nat :=
  match s.toList with
  | [] => none
  | l => if l.all Char.isDigit then some (digitsToNat l) else none

/-- Body of DELETE /api/assets/:id after the user id has been extracted:
DELETE WHERE id AND user_id, answering the generic failure when the
statement errs or affects no row. -/
def deleteAssetCore (uid : Int) (idStr : String) (ledger : List Asset) :
    ApiResponse × List Asset :=
  match parseId idStr with
  | none => (.serverError "Failed to delete", ledger)
  | some n =>
    let remaining := ledger.filter (fun a => !(a.id == n && a.userId == uid))
    if remaining.length = ledger.length then (.serverError "Failed to delete", ledger)
    else (.ok "Deleted", remaining)

/-- DELETE /api/assets/:id of the multi-user revision: the handler never
checks the header for emptiness, it goes straight through Atoi with the
error discarded. -/
def deleteAsset (header : String) (idStr : String) (ledger : List Asset) :
    ApiResponse × List Asset :=
  deleteAssetCore (goAtoi header) idStr ledger

/-- Application of one successful quote to one row: UPDATE SET
current_price, previous_close, currency. -/
def setQuote (q : Quote) (a : Asset) : Asset :=
  { a with currentPrice := q.price, previousClose := q.prevClose, currency := q.currency }

/-- First-occurrence deduplication, modelling SELECT DISTINCT name. -/
def dedupFirst : List String → List String
  | [] => []
  | n :: rest => n :: (dedupFirst rest).filter (fun m => m != n)

/-- One iteration of the multi-user price sweep: fetch the symbol, and on
success write the three price columns of every row carrying that name,
provided the write physically applies. -/
def ledgerStepByName (fetch : String → Option Quote) (wOk : String → Bool)
    (led : List Asset) (symbol : String) : List Asset :=
  match fetch symbol with
  | none => led
  | some q =>
    if wOk symbol then
      led.map (fun a => if a.name = symbol then setQuote q a else a)
    else led

/-- POST /api/update-prices of the multi-user revision: iterate the
distinct tracked names, apply each successful quote to all rows of that
name, and always answer the fixed success message. -/
def updatePricesMulti (fetch : String → Option Quote) (wOk : String → Bool)
    (ledger : List Asset) : ApiResponse × List Asset :=
  (.ok "Prices updated",
    (dedupFirst (ledger.map (fun a => a.name))).foldl (ledgerStepByName fetch wOk) ledger)

/-- Result of the counted price sweep: the symbols handed to the quote
fetch, the updatedCount accumulator, and the final table state. -/
structure SweepResult where
  fetched : List String
  count : Nat
  ledger : List Asset
  deriving DecidableEq, Repr

/-- Ledger effect of one iteration of the counted sweep: skip placeholder
symbols, skip failed fetches, else write the three price columns of the
row addressed by id when the write physically applies. -/
def ledgerStepById (fetch : String → Option Quote) (wOk : Nat → Bool)
    (led : List Asset) (t : Nat × String) : List Asset :=
  if isPlaceholder t.2 then led
  else match fetch t.2 with
    | none => led
    | some q =>
      if wOk t.1 then
        led.map (fun a => if a.id = t.1 then setQuote q a else a)
      else led

/-- One full iteration of the counted sweep loop body over the
accumulator: non-placeholder symbols are handed to the fetch, and
updatedCount increases exactly when the fetch and the write succeed. -/
def sweepStep (fetch : String → Option Quote) (wOk : Nat → Bool)
    (acc : SweepResult) (t : Nat × String) : SweepResult :=
  { fetched := acc.fetched ++ (if isPlaceholder t.2 then [] else [t.2]),
    count := acc.count +
      (if !isPlaceholder t.2 && (fetch t.2).isSome && wOk t.1 then 1 else 0),
    ledger := ledgerStepById fetch wOk acc.ledger t }

/-- POST /api/update-prices of the counted revisions: snapshot the id and
name of every row, run the loop, and answer with the count of rows
updated. -/
def updatePricesCounted (fetch : String → Option Quote) (wOk : Nat → Bool)
    (ledger : List Asset) : ApiResponse × SweepResult :=
  let res := (ledger.map (fun a => (a.id, a.name))).foldl (sweepStep fetch wOk)
    { fetched := [], count := 0, ledger := ledger }
  (.ok ("Updated " ++ toString res.count ++ " assets"), res)

/-- Payload of GET /api/rates. -/
structure Rates where
  usd : ℚ
  inr : ℚ
  sgd : ℚ
  deriving DecidableEq, Repr

/-- GET /api/rates: fetch the two FX symbols with the error discarded, so
a failed fetch leaves the zero value, and replace a zero value by the
hard-coded fallback; USD is the literal 1.0. -/
def rates (fetch : String → Option Quote) : Rates :=
  let inrRate := match fetch "INR=X" with
    | some q => q.price
    | none => 0
  let sgdRate := match fetch "SGD=X" with
    | some q => q.price
    | none => 0
  { usd := 1,
    inr := if inrRate = 0 then 87 else inrRate,
    sgd := if sgdRate = 0 then 1.36 else sgdRate }

/-- Public operation of the system, with every external effect resolved
by an explicit oracle. -/
inductive Op where
  | add (writeOk : Bool) (freshId : Nat) (header : String) (input : AssetInput)
  | del (header : String) (idStr : String)
  | sweepMulti (fetch : String → Option Quote) (wOk : String → Bool)
  | sweepCounted (fetch : String → Option Quote) (wOk : Nat → Bool)

/-- State transition of one operation on the ledger. -/
def applyOp (ledger : List Asset) : Op → List Asset
  | .add w f h i => (postAssets w f h i ledger).2
  | .del h i => (deleteAsset h i ledger).2
  | .sweepMulti f w => (updatePricesMulti f w ledger).2
  | .sweepCounted f w => ((updatePricesCounted f w ledger).2).ledger

/-- Ledger reached by a sequence of operations from the empty table. -/
def runOps (ops : List Op) : List Asset :=
  ops.foldl applyOp []

/-- Operation predicate: every add carries a non-negative quantity. -/
def addNonneg : Op → Bool
  | .add _ _ _ i => decide (0 ≤ i.quantity)
  | _ => true

/-- Per-row view of one multi-user sweep iteration. -/
def rowStepByName (fetch : String → Option Quote) (wOk : String → Bool)
    (r : Asset) (symbol : String) : Asset :=
  match fetch symbol with
  | none => r
  | some q =>
    if wOk symbol then (if r.name = symbol then setQuote q r else r) else r

/-- Per-row view of one counted sweep iteration. -/
def rowStepById (fetch : String → Option Quote) (wOk : Nat → Bool)
    (r : Asset) (t : Nat × String) : Asset :=
  if isPlaceholder t.2 then r
  else match fetch t.2 with
    | none => r
    | some q =>
      if wOk t.1 then (if r.id = t.1 then setQuote q r else r) else r

theorem setQuote_fields (q : Quote) (a : Asset) :
    (setQuote q a).id = a.id ∧ (setQuote q a).userId = a.userId ∧
    (setQuote q a).name = a.name ∧ (setQuote q a).assetType = a.assetType ∧
    (setQuote q a).quantity = a.quantity ∧ (setQuote q a).avgPrice = a.avgPrice :=
  ⟨rfl, rfl, rfl, rfl, rfl, rfl⟩

theorem ledgerStepByName_map (fetch : String → Option Quote) (wOk : String → Bool)
    (led : List Asset) (s : String) :
    ledgerStepByName fetch wOk led s = led.map (fun r => rowStepByName fetch wOk r s) := by
  unfold ledgerStepByName rowStepByName
  cases fetch s with
  | none => simp
  | some q =>
    by_cases hw : wOk s <;> simp [hw]

theorem foldl_ledgerStepByName_map (fetch : String → Option Quote) (wOk : String → Bool)
    (names : List String) (led : List Asset) :
    names.foldl (ledgerStepByName fetch wOk) led =
      led.map (fun r => names.foldl (rowStepByName fetch wOk) r) := by
  induction names generalizing led with
  | nil => simp
  | cons s ns ih =>
    simp only [List.foldl_cons, ih, ledgerStepByName_map, List.map_map]
    rfl

theorem rowStepByName_fields (fetch : String → Option Quote) (wOk : String → Bool)
    (r : Asset) (s : String) :
    (rowStepByName fetch wOk r s).id = r.id ∧ (rowStepByName fetch wOk r s).userId = r.userId ∧
    (rowStepByName fetch wOk r s).name = r.name ∧
    (rowStepByName fetch wOk r s).assetType = r.assetType ∧
    (rowStepByName fetch wOk r s).quantity = r.quantity ∧
    (rowStepByName fetch wOk r s).avgPrice = r.avgPrice := by
  unfold rowStepByName
  cases fetch s with
  | none => exact ⟨rfl, rfl, rfl, rfl, rfl, rfl⟩
  | some q =>
    by_cases hw : wOk s <;> by_cases hn : r.name = s <;>
      simp [hw, hn, setQuote]

theorem rowFoldByName_fields (fetch : String → Option Quote) (wOk : String → Bool)
    (names : List String) (r : Asset) :
    (names.foldl (rowStepByName fetch wOk) r).id = r.id ∧
    (names.foldl (rowStepByName fetch wOk) r).userId = r.userId ∧
    (names.foldl (rowStepByName fetch wOk) r).name = r.name ∧
    (names.foldl (rowStepByName fetch wOk) r).assetType = r.assetType ∧
    (names.foldl (rowStepByName fetch wOk) r).quantity = r.quantity ∧
    (names.foldl (rowStepByName fetch wOk) r).avgPrice = r.avgPrice := by
  induction names generalizing r with
  | nil => exact ⟨rfl, rfl, rfl, rfl, rfl, rfl⟩
  | cons s ns ih =>
    simp only [List.foldl_cons]
    obtain ⟨h1, h2, h3, h4, h5, h6⟩ := ih (rowStepByName fetch wOk r s)
    obtain ⟨g1, g2, g3, g4, g5, g6⟩ := rowStepByName_fields fetch wOk r s
    exact ⟨h1.trans g1, h2.trans g2, h3.trans g3, h4.trans g4, h5.trans g5, h6.trans g6⟩

theorem ledgerStepById_map (fetch : String → Option Quote) (wOk : Nat → Bool)
    (led : List Asset) (t : Nat × String) :
    ledgerStepById fetch wOk led t = led.map (fun r => rowStepById fetch wOk r t) := by
  unfold ledgerStepById rowStepById
  by_cases hp : isPlaceholder t.2
  · simp [hp]
  · simp only [hp, if_false, Bool.false_eq_true]
    cases fetch t.2 with
    | none => simp
    | some q => by_cases hw : wOk t.1 <;> simp [hw]

theorem foldl_ledgerStepById_map (fetch : String → Option Quote) (wOk : Nat → Bool)
    (ts : List (Nat × String)) (led : List Asset) :
    ts.foldl (ledgerStepById fetch wOk) led =
      led.map (fun r => ts.foldl (rowStepById fetch wOk) r) := by
  induction ts generalizing led with
  | nil => simp
  | cons t ts ih =>
    simp only [List.foldl_cons, ih, ledgerStepById_map, List.map_map]
    rfl

theorem rowStepById_fields (fetch : String → Option Quote) (wOk : Nat → Bool)
    (r : Asset) (t : Nat × String) :
    (rowStepById fetch wOk r t).id = r.id ∧ (rowStepById fetch wOk r t).userId = r.userId ∧
    (rowStepById fetch wOk r t).name = r.name ∧
    (rowStepById fetch wOk r t).assetType = r.assetType ∧
    (rowStepById fetch wOk r t).quantity = r.quantity ∧
    (rowStepById fetch wOk r t).avgPrice = r.avgPrice := by
  unfold rowStepById
  by_cases hp : isPlaceholder t.2
  · simp [hp]
  · simp only [hp, if_false, Bool.false_eq_true]
    cases fetch t.2 with
    | none => exact ⟨rfl, rfl, rfl, rfl, rfl, rfl⟩
    | some q =>
      by_cases hw : wOk t.1 <;> by_cases hi : r.id = t.1 <;>
        simp [hw, hi, setQuote]

theorem rowFoldById_fields (fetch : String → Option Quote) (wOk : Nat → Bool)
    (ts : List (Nat × String)) (r : Asset) :
    (ts.foldl (rowStepById fetch wOk) r).id = r.id ∧
    (ts.foldl (rowStepById fetch wOk) r).userId = r.userId ∧
    (ts.foldl (rowStepById fetch wOk) r).name = r.name ∧
    (ts.foldl (rowStepById fetch wOk) r).assetType = r.assetType ∧
    (ts.foldl (rowStepById fetch wOk) r).quantity = r.quantity ∧
    (ts.foldl (rowStepById fetch wOk) r).avgPrice = r.avgPrice := by
  induction ts generalizing r with
  | nil => exact ⟨rfl, rfl, rfl, rfl, rfl, rfl⟩
  | cons t ts ih =>
    simp only [List.foldl_cons]
    obtain ⟨h1, h2, h3, h4, h5, h6⟩ := ih (rowStepById fetch wOk r t)
    obtain ⟨g1, g2, g3, g4, g5, g6⟩ := rowStepById_fields fetch wOk r t
    exact ⟨h1.trans g1, h2.trans g2, h3.trans g3, h4.trans g4, h5.trans g5, h6.trans g6⟩

theorem foldl_sweepStep_fetched (fetch : String → Option Quote) (wOk : Nat → Bool)
    (ts : List (Nat × String)) (acc : SweepResult) :
    (ts.foldl (sweepStep fetch wOk) acc).fetched =
      acc.fetched ++ (ts.filter (fun t => !isPlaceholder t.2)).map (fun t => t.2) := by
  induction ts generalizing acc with
  | nil => simp
  | cons t ts ih =>
    simp only [List.foldl_cons, ih, sweepStep]
    by_cases hp : isPlaceholder t.2 <;> simp [hp, List.filter_cons]

theorem foldl_sweepStep_count (fetch : String → Option Quote) (wOk : Nat → Bool)
    (ts : List (Nat × String)) (acc : SweepResult) :
    (ts.foldl (sweepStep fetch wOk) acc).count =
      acc.count +
        (ts.filter (fun t => !isPlaceholder t.2 && (fetch t.2).isSome && wOk t.1)).length := by
  induction ts generalizing acc with
  | nil => simp
  | cons t ts ih =>
    simp only [List.foldl_cons, ih, sweepStep]
    by_cases hc : (!isPlaceholder t.2 && (fetch t.2).isSome && wOk t.1) = true
    · simp [hc, List.filter_cons]
      omega
    · simp [hc, List.filter_cons]

theorem foldl_sweepStep_ledger (fetch : String → Option Quote) (wOk : Nat → Bool)
    (ts : List (Nat × String)) (acc : SweepResult) :
    (ts.foldl (sweepStep fetch wOk) acc).ledger =
      ts.foldl (ledgerStepById fetch wOk) acc.ledger := by
  induction ts generalizing acc with
  | nil => rfl
  | cons t ts ih =>
    simp only [List.foldl_cons, ih, sweepStep]

theorem rowFoldById_eq_self (fetch : String → Option Quote) (wOk : Nat → Bool)
    (ts : List (Nat × String)) (r : Asset)
    (h : ∀ t ∈ ts, t.1 = r.id →
      isPlaceholder t.2 = true ∨ fetch t.2 = none ∨ wOk t.1 = false) :
    ts.foldl (rowStepById fetch wOk) r = r := by
  induction ts with
  | nil => rfl
  | cons t ts ih =>
    have hstep : rowStepById fetch wOk r t = r := by
      unfold rowStepById
      by_cases hp : isPlaceholder t.2
      · simp [hp]
      · simp only [hp, if_false, Bool.false_eq_true]
        cases hf : fetch t.2 with
        | none => rfl
        | some q =>
          by_cases hw : wOk t.1
          · simp only [hw, if_true]
            by_cases hi : r.id = t.1
            · rcases h t (List.mem_cons_self t ts) hi.symm with hc | hc | hc
              · exact absurd hc (by simp [hp])
              · exact absurd hc (by simp [hf])
              · exact absurd hc (by simp [hw])
            · simp [hi]
          · simp [hw]
    simp only [List.foldl_cons, hstep]
    exact ih (fun t ht => h t (List.mem_cons_of_mem _ ht))

/-- Fixed holding used by the concrete witness instantiations. -/
def sampleHolding : Asset :=
  { id := 1, userId := 1, name := "AAPL", assetType := "Stock", quantity := 2,
    avgPrice := 10, currentPrice := 10, previousClose := 10, currency := "USD" }

/-- C1: merging an add of quantity q2 at price p2 onto an existing holding
with quantity q1 and average cost p1, with all inputs non-negative and
q1 + q2 positive, persists quantity q1 + q2 and average cost
(q1 p1 + q2 p2) / (q1 + q2) exactly. -/
theorem merge_weighted_average (q1 p1 q2 p2 : ℚ) (_hq1 : 0 ≤ q1) (_hp1 : 0 ≤ p1)
    (_hq2 : 0 ≤ q2) (_hp2 : 0 ≤ p2) (hpos : 0 < q1 + q2) (fid : Nat) (header : String)
    (hne : header ≠ "") (nm tp : String) (L : List Asset) (ex : Asset)
    (hfind : findAsset nm (goAtoi header) L = some ex)
    (hq : ex.quantity = q1) (hp : ex.avgPrice = p1) :
    (postAssets true fid header ⟨nm, tp, q2, p2⟩ L).1 = ApiResponse.ok "Asset merged!" ∧
    { ex with quantity := q1 + q2, avgPrice := (q1 * p1 + q2 * p2) / (q1 + q2) } ∈
      (postAssets true fid header ⟨nm, tp, q2, p2⟩ L).2 := by
  have hmem : ex ∈ L := List.mem_of_find?_eq_some hfind
  unfold postAssets
  rw [if_neg hne]
  simp only [postAssetsCore, hfind, if_true]
  refine ⟨trivial, List.mem_map.mpr ⟨ex, hmem, ?_⟩⟩
  simp [hq, hp, mergeAvgPrice, hpos]

/-- Concrete instantiation of the C1 theorem. -/
theorem merge_weighted_average_check :
    ((0:ℚ) ≤ 2 ∧ (0:ℚ) ≤ 10 ∧ (0:ℚ) ≤ 3 ∧ (0:ℚ) ≤ 20 ∧ (0:ℚ) < 2 + 3 ∧
      "1" ≠ "" ∧ findAsset "AAPL" (goAtoi "1") [sampleHolding] = some sampleHolding) ∧
    ((postAssets true 5 "1" ⟨"AAPL", "Stock", 3, 20⟩ [sampleHolding]).1 =
        ApiResponse.ok "Asset merged!" ∧
      { sampleHolding with
          quantity := (2:ℚ) + 3,
          avgPrice := ((2:ℚ) * 10 + 3 * 20) / (2 + 3) } ∈
        (postAssets true 5 "1" ⟨"AAPL", "Stock", 3, 20⟩ [sampleHolding]).2) :=
  ⟨⟨by decide, by decide, by decide, by decide, add_pos (by decide) (by decide),
    by decide, by decide⟩,
   merge_weighted_average 2 10 3 20 (by decide) (by decide) (by decide) (by decide)
     (add_pos (by decide) (by decide)) 5 "1" (by decide) "AAPL" "Stock"
     [sampleHolding] sampleHolding (by decide) rfl rfl⟩

/-- C2: a merge whose resulting total quantity is non-positive persists an
average cost of zero, and the weighted-average division is guarded by the
positivity test, so the division branch is not taken. -/
theorem merge_floor_rule (q1 p1 q2 p2 : ℚ) (hnp : q1 + q2 ≤ 0) (fid : Nat)
    (header : String) (hne : header ≠ "") (nm tp : String) (L : List Asset) (ex : Asset)
    (hfind : findAsset nm (goAtoi header) L = some ex)
    (hq : ex.quantity = q1) (hp : ex.avgPrice = p1) :
    mergeAvgPrice q1 p1 q2 p2 = 0 ∧
    (postAssets true fid header ⟨nm, tp, q2, p2⟩ L).1 = ApiResponse.ok "Asset merged!" ∧
    { ex with quantity := q1 + q2, avgPrice := 0 } ∈
      (postAssets true fid header ⟨nm, tp, q2, p2⟩ L).2 := by
  have hguard : ¬ (0 < q1 + q2) := not_lt.mpr hnp
  have hzero : mergeAvgPrice q1 p1 q2 p2 = 0 := by
    unfold mergeAvgPrice
    rw [if_neg hguard]
  have hmem : ex ∈ L := List.mem_of_find?_eq_some hfind
  refine ⟨hzero, ?_⟩
  unfold postAssets
  rw [if_neg hne]
  simp only [postAssetsCore, hfind, if_true]
  refine ⟨trivial, List.mem_map.mpr ⟨ex, hmem, ?_⟩⟩
  simp [hq, hp, hzero]

/-- Concrete instantiation of the C2 theorem: selling the whole position
drives the quantity to zero and the average cost to the zero floor. -/
theorem merge_floor_rule_check :
    ((2:ℚ) + -2 ≤ 0 ∧ "1" ≠ "" ∧
      findAsset "AAPL" (goAtoi "1") [sampleHolding] = some sampleHolding) ∧
    (mergeAvgPrice 2 10 (-2) 20 = 0 ∧
      (postAssets true 5 "1" ⟨"AAPL", "Stock", -2, 20⟩ [sampleHolding]).1 =
        ApiResponse.ok "Asset merged!" ∧
      { sampleHolding with
          quantity := (2:ℚ) + -2,
          avgPrice := 0 } ∈
        (postAssets true 5 "1" ⟨"AAPL", "Stock", -2, 20⟩ [sampleHolding]).2) :=
  ⟨⟨by simp, by decide, by decide⟩,
   merge_floor_rule 2 10 (-2) 20 (by simp) 5 "1" (by decide) "AAPL" "Stock"
     [sampleHolding] sampleHolding (by decide) rfl rfl⟩

/-- C4: evaluation of the merge branch of the final revision at a failing
write.  The UPDATE result is assigned but never checked there, so the
handler answers the merged success message while the table is unchanged;
the earlier revisions answer the failure message instead. -/
theorem merge_update_failure_reports_success :
    postAssets false 2 "1" ⟨"AAPL", "Stock", 1, 20⟩ [sampleHolding]
      = (ApiResponse.ok "Asset merged!", [sampleHolding]) := by
  decide

/-- C5: an add for a ticker with no existing holding creates exactly one
new holding carrying the given quantity, an average cost equal to the
price, current price and previous close both equal to the price, so the
day gain starts at zero, and the currency inferred from the ticker
suffix. -/
theorem addOrMerge_creates_new (fid : Nat) (header : String) (hne : header ≠ "")
    (inp : AssetInput) (L : List Asset)
    (hnone : findAsset inp.name (goAtoi header) L = none) :
    postAssets true fid header inp L = (ApiResponse.ok "Asset saved!",
      L ++ [{ id := fid, userId := goAtoi header, name := inp.name,
              assetType := inp.assetType, quantity := inp.quantity,
              avgPrice := inp.avgPrice, currentPrice := inp.avgPrice,
              previousClose := inp.avgPrice, currency := inferCurrency inp.name }]) ∧
    inp.avgPrice - inp.avgPrice = 0 ∧
    inferCurrency inp.name =
      (if strHasSuffix inp.name ".NS" || strHasSuffix inp.name ".BO" then "INR"
       else if strHasSuffix inp.name ".SI" then "SGD" else "USD") := by
  refine ⟨?_, by ring, rfl⟩
  unfold postAssets
  rw [if_neg hne]
  simp only [postAssetsCore, hnone, if_true]

/-- Concrete instantiation of the C5 theorem on an Indian ticker. -/
theorem addOrMerge_creates_new_check :
    ("7" ≠ "" ∧ findAsset "RELIANCE.NS" (goAtoi "7") [] = none) ∧
    (postAssets true 3 "7" ⟨"RELIANCE.NS", "Stock", 4, 2500⟩ [] =
        (ApiResponse.ok "Asset saved!",
          [{ id := 3, userId := goAtoi "7", name := "RELIANCE.NS",
             assetType := "Stock", quantity := 4, avgPrice := 2500,
             currentPrice := 2500, previousClose := 2500,
             currency := inferCurrency "RELIANCE.NS" }]) ∧
      (2500:ℚ) - 2500 = 0 ∧
      inferCurrency "RELIANCE.NS" =
        (if strHasSuffix "RELIANCE.NS" ".NS" || strHasSuffix "RELIANCE.NS" ".BO" then "INR"
         else if strHasSuffix "RELIANCE.NS" ".SI" then "SGD" else "USD")) :=
  ⟨by decide,
   addOrMerge_creates_new 3 "7" (by decide) ⟨"RELIANCE.NS", "Stock", 4, 2500⟩ [] (by decide)⟩

/-- C9: the rates endpoint is total; it always reports USD as exactly one,
and for INR and SGD it reports the fetched rate with the hard-coded
fallback substituted whenever the fetch fails or yields zero. -/
theorem rates_always_succeeds (fetch : String → Option Quote) :
    (rates fetch).usd = 1 ∧
    (rates fetch).inr = (match fetch "INR=X" with
      | none => 87
      | some q => if q.price = 0 then 87 else q.price) ∧
    (rates fetch).sgd = (match fetch "SGD=X" with
      | none => 1.36
      | some q => if q.price = 0 then 1.36 else q.price) := by
  unfold rates
  refine ⟨rfl, ?_, ?_⟩
  · cases h : fetch "INR=X" with
    | none => simp
    | some q => by_cases hz : q.price = 0 <;> simp [hz]
  · cases h : fetch "SGD=X" with
    | none => simp
    | some q => by_cases hz : q.price = 0 <;> simp [hz]

theorem getElem?_map_eq_of_comp {α : Type} (L : List Asset) (f : Asset → Asset)
    (g : Asset → α) (h : ∀ a, g (f a) = g a) (i : Nat) :
    (L.map f)[i]?.map g = L[i]?.map g := by
  rw [List.getElem?_map, Option.map_map]
  have hc : g ∘ f = g := funext h
  rw [hc]

/-- C6: a merge writes only quantity and average cost, leaving current
price, previous close, currency and asset type of every row unchanged,
and the multi-user price sweep writes only current price, previous close
and currency, leaving quantity, average cost, id, name, owner and asset
type of every row unchanged. -/
theorem merge_and_sweep_frames (wOk : Bool) (fid : Nat) (header : String)
    (inp : AssetInput) (L : List Asset) (ex : Asset) (hne : header ≠ "")
    (hfind : findAsset inp.name (goAtoi header) L = some ex)
    (fetch : String → Option Quote) (wOk2 : String → Bool) :
    (∀ i : Nat,
      ((postAssets wOk fid header inp L).2)[i]?.map Asset.currentPrice =
        L[i]?.map Asset.currentPrice ∧
      ((postAssets wOk fid header inp L).2)[i]?.map Asset.previousClose =
        L[i]?.map Asset.previousClose ∧
      ((postAssets wOk fid header inp L).2)[i]?.map Asset.currency =
        L[i]?.map Asset.currency ∧
      ((postAssets wOk fid header inp L).2)[i]?.map Asset.assetType =
        L[i]?.map Asset.assetType) ∧
    (∀ i : Nat,
      ((updatePricesMulti fetch wOk2 L).2)[i]?.map Asset.quantity =
        L[i]?.map Asset.quantity ∧
      ((updatePricesMulti fetch wOk2 L).2)[i]?.map Asset.avgPrice =
        L[i]?.map Asset.avgPrice ∧
      ((updatePricesMulti fetch wOk2 L).2)[i]?.map Asset.id = L[i]?.map Asset.id ∧
      ((updatePricesMulti fetch wOk2 L).2)[i]?.map Asset.name = L[i]?.map Asset.name ∧
      ((updatePricesMulti fetch wOk2 L).2)[i]?.map Asset.userId = L[i]?.map Asset.userId ∧
      ((updatePricesMulti fetch wOk2 L).2)[i]?.map Asset.assetType =
        L[i]?.map Asset.assetType) := by
  constructor
  · intro i
    have h2 : (postAssets wOk fid header inp L).2 =
        (if wOk = true then
          L.map (fun a => if a.id = ex.id then
            { a with quantity := ex.quantity + inp.quantity,
                     avgPrice := mergeAvgPrice ex.quantity ex.avgPrice
                       inp.quantity inp.avgPrice }
            else a)
         else L) := by
      unfold postAssets
      rw [if_neg hne]
      simp only [postAssetsCore, hfind]
    rw [h2]
    by_cases hw : wOk = true
    · rw [if_pos hw]
      refine ⟨?_, ?_, ?_, ?_⟩ <;>
        refine getElem?_map_eq_of_comp L _ _ (fun a => ?_) i <;>
        dsimp only <;> split <;> rfl
    · rw [if_neg hw]
      exact ⟨rfl, rfl, rfl, rfl⟩
  · intro i
    have h2 : (updatePricesMulti fetch wOk2 L).2 =
        L.map (fun r =>
          (dedupFirst (L.map (fun a => a.name))).foldl (rowStepByName fetch wOk2) r) := by
      unfold updatePricesMulti
      exact foldl_ledgerStepByName_map fetch wOk2 _ L
    rw [h2]
    refine ⟨?_, ?_, ?_, ?_, ?_, ?_⟩ <;>
      refine getElem?_map_eq_of_comp L _ _ (fun a => ?_) i
    · exact (rowFoldByName_fields fetch wOk2 _ a).2.2.2.2.1
    · exact (rowFoldByName_fields fetch wOk2 _ a).2.2.2.2.2
    · exact (rowFoldByName_fields fetch wOk2 _ a).1
    · exact (rowFoldByName_fields fetch wOk2 _ a).2.2.1
    · exact (rowFoldByName_fields fetch wOk2 _ a).2.1
    · exact (rowFoldByName_fields fetch wOk2 _ a).2.2.2.1

/-- Concrete instantiation of the C6 theorem. -/
theorem merge_and_sweep_frames_check :
    ("1" ≠ "" ∧ findAsset "AAPL" (goAtoi "1") [sampleHolding] = some sampleHolding) ∧
    ((∀ i : Nat,
      ((postAssets true 5 "1" ⟨"AAPL", "Stock", 3, 20⟩ [sampleHolding]).2)[i]?.map
          Asset.currentPrice = [sampleHolding][i]?.map Asset.currentPrice ∧
      ((postAssets true 5 "1" ⟨"AAPL", "Stock", 3, 20⟩ [sampleHolding]).2)[i]?.map
          Asset.previousClose = [sampleHolding][i]?.map Asset.previousClose ∧
      ((postAssets true 5 "1" ⟨"AAPL", "Stock", 3, 20⟩ [sampleHolding]).2)[i]?.map
          Asset.currency = [sampleHolding][i]?.map Asset.currency ∧
      ((postAssets true 5 "1" ⟨"AAPL", "Stock", 3, 20⟩ [sampleHolding]).2)[i]?.map
          Asset.assetType = [sampleHolding][i]?.map Asset.assetType) ∧
    (∀ i : Nat,
      ((updatePricesMulti (fun _ => none) (fun _ => true) [sampleHolding]).2)[i]?.map
          Asset.quantity = [sampleHolding][i]?.map Asset.quantity ∧
      ((updatePricesMulti (fun _ => none) (fun _ => true) [sampleHolding]).2)[i]?.map
          Asset.avgPrice = [sampleHolding][i]?.map Asset.avgPrice ∧
      ((updatePricesMulti (fun _ => none) (fun _ => true) [sampleHolding]).2)[i]?.map
          Asset.id = [sampleHolding][i]?.map Asset.id ∧
      ((updatePricesMulti (fun _ => none) (fun _ => true) [sampleHolding]).2)[i]?.map
          Asset.name = [sampleHolding][i]?.map Asset.name ∧
      ((updatePricesMulti (fun _ => none) (fun _ => true) [sampleHolding]).2)[i]?.map
          Asset.userId = [sampleHolding][i]?.map Asset.userId ∧
      ((updatePricesMulti (fun _ => none) (fun _ => true) [sampleHolding]).2)[i]?.map
          Asset.assetType = [sampleHolding][i]?.map Asset.assetType)) :=
  ⟨⟨by decide, by decide⟩,
   merge_and_sweep_frames true 5 "1" ⟨"AAPL", "Stock", 3, 20⟩ [sampleHolding]
     sampleHolding (by decide) (by decide) (fun _ => none) (fun _ => true)⟩

theorem counted_ledger_eq_map (fetch : String → Option Quote) (wOk : Nat → Bool)
    (L : List Asset) :
    ((updatePricesCounted fetch wOk L).2).ledger =
      L.map (fun r =>
        (L.map (fun a => (a.id, a.name))).foldl (rowStepById fetch wOk) r) := by
  unfold updatePricesCounted
  simp only
  rw [foldl_sweepStep_ledger]
  exact foldl_ledgerStepById_map fetch wOk _ L

theorem counted_fetched_eq (fetch : String → Option Quote) (wOk : Nat → Bool)
    (L : List Asset) :
    ((updatePricesCounted fetch wOk L).2).fetched =
      ((L.map (fun a => (a.id, a.name))).filter
        (fun t => !isPlaceholder t.2)).map (fun t => t.2) := by
  unfold updatePricesCounted
  simp only
  rw [foldl_sweepStep_fetched]
  simp

theorem counted_count_eq (fetch : String → Option Quote) (wOk : Nat → Bool)
    (L : List Asset) :
    ((updatePricesCounted fetch wOk L).2).count =
      (L.filter
        (fun a => !isPlaceholder a.name && (fetch a.name).isSome && wOk a.id)).length := by
  unfold updatePricesCounted
  simp only
  rw [foldl_sweepStep_count]
  simp only [Nat.zero_add]
  rw [List.filter_map, List.length_map]
  rfl

theorem asset_eq_of_id_eq (L : List Asset) (hnd : (L.map Asset.id).Nodup)
    (a b : Asset) (ha : a ∈ L) (hb : b ∈ L) (hid : a.id = b.id) : a = b :=
  List.inj_on_of_nodup_map hnd ha hb hid

theorem counted_row_unchanged (fetch : String → Option Quote) (wOk : Nat → Bool)
    (L : List Asset) (hnd : (L.map Asset.id).Nodup) (a : Asset) (ha : a ∈ L)
    (hcond : isPlaceholder a.name = true ∨ fetch a.name = none ∨ wOk a.id = false) :
    (L.map (fun b => (b.id, b.name))).foldl (rowStepById fetch wOk) a = a := by
  apply rowFoldById_eq_self
  intro t ht htid
  obtain ⟨b, hb, rfl⟩ := List.mem_map.mp ht
  have hba : b = a := asset_eq_of_id_eq L hnd b a hb ha htid
  subst hba
  exact hcond

theorem counted_getElem_unchanged (fetch : String → Option Quote) (wOk : Nat → Bool)
    (L : List Asset) (hnd : (L.map Asset.id).Nodup) (i : Nat) (a : Asset)
    (hLi : L[i]? = some a)
    (hcond : isPlaceholder a.name = true ∨ fetch a.name = none ∨ wOk a.id = false) :
    ((updatePricesCounted fetch wOk L).2).ledger[i]? = some a := by
  have hmem : a ∈ L := List.getElem?_mem hLi
  have hrow := counted_row_unchanged fetch wOk L hnd a hmem hcond
  rw [counted_ledger_eq_map, List.getElem?_map, hLi]
  simp [hrow]

theorem counted_row_applies (fetch : String → Option Quote) (wOk : Nat → Bool)
    (L : List Asset) (hnd : (L.map Asset.id).Nodup) (a : Asset) (ha : a ∈ L) (q : Quote)
    (hph : isPlaceholder a.name = false) (hf : fetch a.name = some q)
    (hw : wOk a.id = true) :
    (L.map (fun b => (b.id, b.name))).foldl (rowStepById fetch wOk) a = setQuote q a := by
  obtain ⟨l1, l2, rfl⟩ := List.append_of_mem ha
  have hnd2 := hnd
  rw [List.map_append, List.map_cons, List.nodup_append] at hnd2
  obtain ⟨h1, h2, hdisj⟩ := hnd2
  have hid_l1 : a.id ∉ l1.map Asset.id := fun hmem =>
    hdisj hmem (List.mem_cons_self _ _)
  have hid_l2 : a.id ∉ l2.map Asset.id := (List.nodup_cons.mp h2).1
  rw [List.map_append, List.map_cons, List.foldl_append]
  have hstep1 : (l1.map (fun b => (b.id, b.name))).foldl (rowStepById fetch wOk) a = a := by
    apply rowFoldById_eq_self
    intro t ht htid
    obtain ⟨b, hb, rfl⟩ := List.mem_map.mp ht
    exact absurd (htid ▸ List.mem_map_of_mem Asset.id hb) hid_l1
  rw [hstep1, List.foldl_cons]
  have hstep2 : rowStepById fetch wOk a (a.id, a.name) = setQuote q a := by
    unfold rowStepById
    simp [hph, hf, hw]
  rw [hstep2]
  apply rowFoldById_eq_self
  intro t ht htid
  obtain ⟨b, hb, rfl⟩ := List.mem_map.mp ht
  have hbid : b.id ∈ l2.map Asset.id := List.mem_map_of_mem Asset.id hb
  have htid2 : b.id = a.id := htid
  exact absurd (htid2 ▸ hbid) hid_l2

/-- C7 counterexample: the final multi-user sweep applies no placeholder
filter, so the claim fails on it as stated: the ticker TESTX, a
placeholder under the filter of the earlier revisions, is in the distinct
name list the sweep hands to the quote fetch, and a successful fetch
updates its row. -/
theorem multi_sweep_fetches_placeholder :
    isPlaceholder "TESTX" = true ∧
    "TESTX" ∈ dedupFirst ([{ sampleHolding with name := "TESTX" }].map
      (fun a => a.name)) ∧
    (updatePricesMulti (fun _ => some ⟨7, 6, "USD"⟩) (fun _ => true)
        [{ sampleHolding with name := "TESTX" }]).2 ≠
      [{ sampleHolding with name := "TESTX" }] := by
  decide

/-- C7 amended: the counted sweep revisions, the ones that maintain
updatedCount, never hand a placeholder ticker, one containing whitespace
or the case-insensitive substring test, to the quote fetch, leave the
rows of such tickers unchanged, and never count them in updatedCount,
which counts exactly the non-placeholder rows whose fetch and write both
succeed; the final multi-user sweep applies no such filter, as the
counterexample shows. -/
theorem sweep_skips_placeholder_tickers (fetch : String → Option Quote) (wOk : Nat → Bool)
    (L : List Asset) (hnd : (L.map Asset.id).Nodup) (sym : String)
    (hph : isPlaceholder sym = true) :
    sym ∉ ((updatePricesCounted fetch wOk L).2).fetched ∧
    (∀ i : Nat, ∀ a : Asset, L[i]? = some a → a.name = sym →
      ((updatePricesCounted fetch wOk L).2).ledger[i]? = some a) ∧
    ((updatePricesCounted fetch wOk L).2).count =
      (L.filter
        (fun a => !isPlaceholder a.name && (fetch a.name).isSome && wOk a.id)).length := by
  refine ⟨?_, ?_, counted_count_eq fetch wOk L⟩
  · intro hmem
    rw [counted_fetched_eq] at hmem
    obtain ⟨t, htf, hts⟩ := List.mem_map.mp hmem
    have := List.of_mem_filter htf
    rw [hts, hph] at this
    simp at this
  · intro i a hLi hname
    exact counted_getElem_unchanged fetch wOk L hnd i a hLi (Or.inl (hname ▸ hph))

/-- Concrete instantiation of the C7 theorem on a ledger holding one
placeholder ticker and one real ticker. -/
theorem sweep_skips_placeholder_tickers_check :
    (([sampleHolding,
        { sampleHolding with id := 2, name := "TCS test" }].map Asset.id).Nodup ∧
      isPlaceholder "TCS test" = true) ∧
    ("TCS test" ∉ ((updatePricesCounted (fun _ => some ⟨7, 6, "USD"⟩) (fun _ => true)
        [sampleHolding, { sampleHolding with id := 2, name := "TCS test" }]).2).fetched ∧
      (∀ i : Nat, ∀ a : Asset,
        [sampleHolding, { sampleHolding with id := 2, name := "TCS test" }][i]? = some a →
        a.name = "TCS test" →
        ((updatePricesCounted (fun _ => some ⟨7, 6, "USD"⟩) (fun _ => true)
          [sampleHolding, { sampleHolding with id := 2, name := "TCS test" }]).2).ledger[i]?
          = some a) ∧
      ((updatePricesCounted (fun _ => some ⟨7, 6, "USD"⟩) (fun _ => true)
        [sampleHolding, { sampleHolding with id := 2, name := "TCS test" }]).2).count =
        ([sampleHolding, { sampleHolding with id := 2, name := "TCS test" }].filter
          (fun a => !isPlaceholder a.name &&
            ((fun _ => some (⟨7, 6, "USD"⟩ : Quote)) a.name).isSome &&
            (fun _ => true) a.id)).length) :=
  ⟨⟨by decide, by decide⟩,
   sweep_skips_placeholder_tickers (fun _ => some ⟨7, 6, "USD"⟩) (fun _ => true)
     [sampleHolding, { sampleHolding with id := 2, name := "TCS test" }]
     (by decide) "TCS test" (by decide)⟩

/-- C8: the counted sweep always completes with the success message built
from updatedCount; updatedCount equals the number of rows whose ticker
passes the filter and whose fetch and write both succeed, hence zero when
every fetch fails; a row whose fetch fails is byte-for-byte unchanged;
and a row whose fetch and write succeed receives exactly the fetched
quote, so one failure never blocks or rolls back another update. -/
theorem sweep_tolerates_partial_failure (fetch : String → Option Quote) (wOk : Nat → Bool)
    (L : List Asset) (hnd : (L.map Asset.id).Nodup) :
    (updatePricesCounted fetch wOk L).1 =
      ApiResponse.ok ("Updated " ++
        toString ((updatePricesCounted fetch wOk L).2).count ++ " assets") ∧
    ((updatePricesCounted fetch wOk L).2).count =
      (L.filter
        (fun a => !isPlaceholder a.name && (fetch a.name).isSome && wOk a.id)).length ∧
    (∀ i : Nat, ∀ a : Asset, L[i]? = some a → fetch a.name = none →
      ((updatePricesCounted fetch wOk L).2).ledger[i]? = some a) ∧
    (∀ a ∈ L, ∀ q : Quote, isPlaceholder a.name = false → fetch a.name = some q →
      wOk a.id = true →
      setQuote q a ∈ ((updatePricesCounted fetch wOk L).2).ledger) := by
  refine ⟨rfl, counted_count_eq fetch wOk L, ?_, ?_⟩
  · intro i a hLi hf
    exact counted_getElem_unchanged fetch wOk L hnd i a hLi (Or.inr (Or.inl hf))
  · intro a ha q hph hf hw
    have hrow := counted_row_applies fetch wOk L hnd a ha q hph hf hw
    rw [counted_ledger_eq_map]
    exact hrow ▸ List.mem_map_of_mem _ ha

/-- Concrete instantiation of the C8 theorem: one ticker fails to fetch,
the other succeeds. -/
theorem sweep_tolerates_partial_failure_check :
    (([sampleHolding, { sampleHolding with id := 2, name := "MSFT" }].map Asset.id).Nodup) ∧
    ((updatePricesCounted
        (fun s => if s = "MSFT" then some ⟨7, 6, "USD"⟩ else none) (fun _ => true)
        [sampleHolding, { sampleHolding with id := 2, name := "MSFT" }]).1 =
      ApiResponse.ok ("Updated " ++
        toString ((updatePricesCounted
          (fun s => if s = "MSFT" then some ⟨7, 6, "USD"⟩ else none) (fun _ => true)
          [sampleHolding, { sampleHolding with id := 2, name := "MSFT" }]).2).count ++
        " assets") ∧
      ((updatePricesCounted
        (fun s => if s = "MSFT" then some ⟨7, 6, "USD"⟩ else none) (fun _ => true)
        [sampleHolding, { sampleHolding with id := 2, name := "MSFT" }]).2).count =
        ([sampleHolding, { sampleHolding with id := 2, name := "MSFT" }].filter
          (fun a => !isPlaceholder a.name &&
            ((fun s => if s = "MSFT" then some (⟨7, 6, "USD"⟩ : Quote) else none)
              a.name).isSome && (fun _ => true) a.id)).length ∧
      (∀ i : Nat, ∀ a : Asset,
        [sampleHolding, { sampleHolding with id := 2, name := "MSFT" }][i]? = some a →
        (fun s => if s = "MSFT" then some (⟨7, 6, "USD"⟩ : Quote) else none) a.name = none →
        ((updatePricesCounted
          (fun s => if s = "MSFT" then some ⟨7, 6, "USD"⟩ else none) (fun _ => true)
          [sampleHolding, { sampleHolding with id := 2, name := "MSFT" }]).2).ledger[i]? =
          some a) ∧
      (∀ a ∈ [sampleHolding, { sampleHolding with id := 2, name := "MSFT" }], ∀ q : Quote,
        isPlaceholder a.name = false →
        (fun s => if s = "MSFT" then some (⟨7, 6, "USD"⟩ : Quote) else none) a.name = some q →
        (fun _ => true) a.id = true →
        setQuote q a ∈ ((updatePricesCounted
          (fun s => if s = "MSFT" then some ⟨7, 6, "USD"⟩ else none) (fun _ => true)
          [sampleHolding, { sampleHolding with id := 2, name := "MSFT" }]).2).ledger)) :=
  ⟨by decide,
   sweep_tolerates_partial_failure
     (fun s => if s = "MSFT" then some ⟨7, 6, "USD"⟩ else none) (fun _ => true)
     [sampleHolding, { sampleHolding with id := 2, name := "MSFT" }] (by decide)⟩

theorem updatePricesMulti_ledger_eq_map (fetch : String → Option Quote)
    (wOk : String → Bool) (L : List Asset) :
    (updatePricesMulti fetch wOk L).2 =
      L.map (fun r =>
        (dedupFirst (L.map (fun a => a.name))).foldl (rowStepByName fetch wOk) r) := by
  unfold updatePricesMulti
  exact foldl_ledgerStepByName_map fetch wOk _ L

theorem applyOp_quantity_nonneg (L : List Asset) (op : Op)
    (hL : ∀ a ∈ L, 0 ≤ a.quantity) (hop : addNonneg op = true) :
    ∀ a ∈ applyOp L op, 0 ≤ a.quantity := by
  cases op with
  | add w fid h i =>
    have hiq : 0 ≤ i.quantity := of_decide_eq_true hop
    show ∀ a ∈ (postAssets w fid h i L).2, 0 ≤ a.quantity
    unfold postAssets
    by_cases hh : h = ""
    · rw [if_pos hh]
      exact hL
    · rw [if_neg hh]
      cases hfind : findAsset i.name (goAtoi h) L with
      | none =>
        simp only [postAssetsCore, hfind]
        by_cases hw : w = true
        · rw [if_pos hw]
          intro a ha
          rcases List.mem_append.mp ha with hmem | hmem
          · exact hL a hmem
          · rw [List.mem_singleton.mp hmem]
            exact hiq
        · rw [if_neg hw]
          exact hL
      | some ex =>
        have hex : 0 ≤ ex.quantity := hL ex (List.mem_of_find?_eq_some hfind)
        simp only [postAssetsCore, hfind]
        by_cases hw : w = true
        · rw [if_pos hw]
          intro a ha
          obtain ⟨b, hb, rfl⟩ := List.mem_map.mp ha
          split
          · exact add_nonneg hex hiq
          · exact hL b hb
        · rw [if_neg hw]
          exact hL
  | del h i =>
    show ∀ a ∈ (deleteAsset h i L).2, 0 ≤ a.quantity
    cases hp : parseId i with
    | none =>
      simp only [deleteAsset, deleteAssetCore, hp]
      exact hL
    | some n =>
      simp only [deleteAsset, deleteAssetCore, hp]
      split
      · exact hL
      · intro a ha
        exact hL a (List.mem_of_mem_filter ha)
  | sweepMulti f w =>
    show ∀ a ∈ (updatePricesMulti f w L).2, 0 ≤ a.quantity
    rw [updatePricesMulti_ledger_eq_map]
    intro a ha
    obtain ⟨b, hb, rfl⟩ := List.mem_map.mp ha
    rw [(rowFoldByName_fields f w _ b).2.2.2.2.1]
    exact hL b hb
  | sweepCounted f w =>
    show ∀ a ∈ ((updatePricesCounted f w L).2).ledger, 0 ≤ a.quantity
    rw [counted_ledger_eq_map]
    intro a ha
    obtain ⟨b, hb, rfl⟩ := List.mem_map.mp ha
    rw [(rowFoldById_fields f w _ b).2.2.2.2.1]
    exact hL b hb

theorem foldl_applyOp_nonneg (ops : List Op) :
    ∀ L : List Asset, (∀ op ∈ ops, addNonneg op = true) →
    (∀ a ∈ L, 0 ≤ a.quantity) → ∀ a ∈ ops.foldl applyOp L, 0 ≤ a.quantity := by
  induction ops with
  | nil =>
    intro L _ hL
    simpa using hL
  | cons op ops ih =>
    intro L h hL
    rw [List.foldl_cons]
    exact ih (applyOp L op) (fun o ho => h o (List.mem_cons_of_mem _ ho))
      (applyOp_quantity_nonneg L op hL (h op (List.mem_cons_self _ _)))

/-- C3 counterexample: the add handler accepts a negative quantity
unchecked, so the ledger reached from the empty table by one operation
already violates the non-negativity claim. -/
theorem negative_quantity_reachable :
    ¬ (∀ a ∈ runOps [Op.add true 1 "1" ⟨"AAPL", "Stock", -1, 10⟩], 0 ≤ a.quantity) := by
  decide

/-- C3 amended: provided every add operation carries a non-negative
quantity, every holding reached from the empty ledger by any sequence of
add, delete and sweep operations has non-negative quantity after every
step. -/
theorem quantity_nonneg_invariant (ops : List Op)
    (h : ∀ op ∈ ops, addNonneg op = true) :
    ∀ a ∈ runOps ops, 0 ≤ a.quantity := by
  unfold runOps
  exact foldl_applyOp_nonneg ops [] h (fun a ha => absurd ha (List.not_mem_nil a))

/-- Concrete instantiation of the amended C3 theorem. -/
theorem quantity_nonneg_invariant_check :
    (∀ op ∈ [Op.add true 1 "1" ⟨"AAPL", "Stock", 2, 5⟩, Op.del "1" "1",
        Op.sweepMulti (fun _ => none) (fun _ => true)], addNonneg op = true) ∧
    (∀ a ∈ runOps [Op.add true 1 "1" ⟨"AAPL", "Stock", 2, 5⟩, Op.del "1" "1",
        Op.sweepMulti (fun _ => none) (fun _ => true)], 0 ≤ a.quantity) :=
  ⟨by decide,
   quantity_nonneg_invariant
     [Op.add true 1 "1" ⟨"AAPL", "Stock", 2, 5⟩, Op.del "1" "1",
      Op.sweepMulti (fun _ => none) (fun _ => true)] (by decide)⟩

theorem postAssetsCore_not_unauthorized (w : Bool) (fid : Nat) (uid : Int)
    (inp : AssetInput) (L : List Asset) :
    (postAssetsCore w fid uid inp L).1 ≠ ApiResponse.unauthorized := by
  cases hfind : findAsset inp.name uid L with
  | none =>
    simp only [postAssetsCore, hfind]
    by_cases hw : w = true
    · rw [if_pos hw]
      simp
    · rw [if_neg hw]
      simp
  | some ex =>
    simp only [postAssetsCore, hfind]
    simp

theorem deleteAsset_not_unauthorized (header idStr : String) (L : List Asset) :
    (deleteAsset header idStr L).1 ≠ ApiResponse.unauthorized := by
  cases hp : parseId idStr with
  | none =>
    simp [deleteAsset, deleteAssetCore, hp]
  | some n =>
    simp only [deleteAsset, deleteAssetCore, hp]
    split
    · simp
    · simp

/-- C10: only an absent or empty X-User-ID header is rejected as
unauthorized, and only by the add and list handlers; a non-empty header
that does not parse as an integer is silently mapped to owner 0 by all
three handlers, because the Atoi error is discarded; and the delete
handler never answers unauthorized, running its owner-scoped delete as
owner 0 even for an absent header and answering only the generic delete
failure. -/
theorem header_parsing_fallback (header idStr : String) (wOk : Bool) (fid : Nat)
    (inp : AssetInput) (L : List Asset) (hne : header ≠ "")
    (hinv : parseIntOpt header = none) :
    goAtoi header = 0 ∧
    postAssets wOk fid header inp L = postAssetsCore wOk fid 0 inp L ∧
    getAssets header L = (ApiResponse.ok "assets", listAssetsCore 0 L) ∧
    deleteAsset header idStr L = deleteAssetCore 0 idStr L ∧
    deleteAsset "" idStr L = deleteAssetCore 0 idStr L ∧
    (∀ h2 : String, (deleteAsset h2 idStr L).1 ≠ ApiResponse.unauthorized) ∧
    (postAssets wOk fid "" inp L).1 = ApiResponse.unauthorized ∧
    (getAssets "" L).1 = ApiResponse.unauthorized ∧
    (postAssets wOk fid header inp L).1 ≠ ApiResponse.unauthorized ∧
    (getAssets header L).1 ≠ ApiResponse.unauthorized := by
  have h0 : goAtoi header = 0 := by
    unfold goAtoi
    rw [hinv]
  refine ⟨h0, ?_, ?_, ?_, ?_, ?_, rfl, rfl, ?_, ?_⟩
  · unfold postAssets
    rw [if_neg hne, h0]
  · unfold getAssets
    rw [if_neg hne, h0]
  · unfold deleteAsset
    rw [h0]
  · rfl
  · intro h2
    exact deleteAsset_not_unauthorized h2 idStr L
  · unfold postAssets
    rw [if_neg hne]
    exact postAssetsCore_not_unauthorized wOk fid (goAtoi header) inp L
  · unfold getAssets
    rw [if_neg hne]
    simp

/-- Concrete instantiation of the C10 theorem with a non-numeric header. -/
theorem header_parsing_fallback_check :
    ("abc" ≠ "" ∧ parseIntOpt "abc" = none) ∧
    (goAtoi "abc" = 0 ∧
      postAssets true 4 "abc" ⟨"AAPL", "Stock", 1, 2⟩ [sampleHolding] =
        postAssetsCore true 4 0 ⟨"AAPL", "Stock", 1, 2⟩ [sampleHolding] ∧
      getAssets "abc" [sampleHolding] =
        (ApiResponse.ok "assets", listAssetsCore 0 [sampleHolding]) ∧
      deleteAsset "abc" "1" [sampleHolding] = deleteAssetCore 0 "1" [sampleHolding] ∧
      deleteAsset "" "1" [sampleHolding] = deleteAssetCore 0 "1" [sampleHolding] ∧
      (∀ h2 : String, (deleteAsset h2 "1" [sampleHolding]).1 ≠ ApiResponse.unauthorized) ∧
      (postAssets true 4 "" ⟨"AAPL", "Stock", 1, 2⟩ [sampleHolding]).1 =
        ApiResponse.unauthorized ∧
      (getAssets "" [sampleHolding]).1 = ApiResponse.unauthorized ∧
      (postAssets true 4 "abc" ⟨"AAPL", "Stock", 1, 2⟩ [sampleHolding]).1 ≠
        ApiResponse.unauthorized ∧
      (getAssets "abc" [sampleHolding]).1 ≠ ApiResponse.unauthorized) :=
  ⟨⟨by decide, by decide⟩,
   header_parsing_fallback "abc" "1" true 4 ⟨"AAPL", "Stock", 1, 2⟩ [sampleHolding]
     (by decide) (by decide)⟩

end InvestingTracker
